import Mathlib

/-!
Verification of the partitioning / index-mapping engine and the
checkpoint-state resharding protocol of `megatron/core/optimizer/
distrib_optimizer.py`, via a shallow embedding of the relevant code.

Positions and offsets are embedded as `Int` (Python integers are
unbounded and several intermediate expressions can be negative before
being clamped with `max`/`min`); element counts and ranks are `Nat`.
Tensors are embedded as `List Int` of payload values.
-/

namespace DistribOpt

/-- Embeds the `Range` class: a half-open interval `[start, stop)`
(`end` in the source; renamed because `end` is a Lean keyword). -/
structure Range where
  start : Int
  stop : Int
deriving Repr, DecidableEq

/-- `Range.size`: `end - start` (computed in `__init__`). -/
def Range.size (r : Range) : Int := r.stop - r.start

/-- `Range.normalize(start)`: same size, shifted to a new origin. -/
def Range.normalize (r : Range) (start : Int := 0) : Range :=
  ⟨start, start + r.size⟩

/-- Membership of a point in a half-open `Range`. -/
def Range.mem (r : Range) (x : Int) : Prop := r.start ≤ x ∧ x < r.stop

instance (r : Range) (x : Int) : Decidable (r.mem x) := by
  unfold Range.mem; infer_instance

/-- Embeds the loop of `_build_model_gbuf_range` that computes
`gbuf_world_all_ranges`: rank `r` gets
`[r*max + offset, min(size, (r+1)*max) + offset)` with
`max = gbuf_size // world_size`. -/
def gbuf_world_all_ranges (gbuf_size world_size bucket_offset : Nat) :
    List Range :=
  let max_gbuf_range_size := gbuf_size / world_size
  (List.range world_size).map (fun r =>
    let gbuf_world_start := r * max_gbuf_range_size
    let gbuf_world_end := min gbuf_size (gbuf_world_start + max_gbuf_range_size)
    ⟨(gbuf_world_start + bucket_offset : Nat), (gbuf_world_end + bucket_offset : Nat)⟩)

/-- Embeds `_build_model_gbuf_range`'s entry: the assertion
`gbuf_size % data_parallel_world_size == 0` guards the construction of
all ranks' world ranges. -/
def _build_model_gbuf_range (gbuf_size world_size bucket_offset : Nat) :
    Except String (List Range) :=
  if gbuf_size % world_size = 0 then
    .ok (gbuf_world_all_ranges gbuf_size world_size bucket_offset)
  else
    .error "Each bucket's buffer size should be divisible by the data-parallel world size"

/-- Embeds the record built by `_build_model_gbuf_param_range_map` for one
parameter: the four coordinate-frame ranges. -/
structure ParamRangeEntry where
  gbuf_world : Range
  gbuf_world_in_bucket : Range
  gbuf_local : Range
  param : Range
deriving Repr, DecidableEq

/-- Embeds the per-parameter body of `_build_model_gbuf_param_range_map`:
clamp the parameter's world range into shard-local coordinates and, when
non-empty, produce the four ranges. -/
def _build_param_range_entry (param_world_start param_world_end : Int)
    (gbuf_world_range : Range) (bucket_offset : Int) :
    Option ParamRangeEntry :=
  let param_local_start := max 0 (param_world_start - gbuf_world_range.start)
  let param_local_end :=
    min gbuf_world_range.size (param_world_end - gbuf_world_range.start)
  if param_local_end > param_local_start then
    let param_local_range : Range := ⟨param_local_start, param_local_end⟩
    let param_world_range :=
      param_local_range.normalize (param_local_start + gbuf_world_range.start)
    let param_world_range_in_bucket : Range :=
      ⟨param_world_range.start - bucket_offset, param_world_range.stop - bucket_offset⟩
    let sub_param_start := max 0 (gbuf_world_range.start - param_world_start)
    let sub_param_range := param_local_range.normalize sub_param_start
    some ⟨param_world_range, param_world_range_in_bucket, param_local_range,
      sub_param_range⟩
  else
    none

/-- Embeds `_build_model_gbuf_param_range_map`: one entry per parameter
whose world range intersects the local shard, in parameter order. -/
def _build_model_gbuf_param_range_map
    (param_world_index_map : List (Int × Int)) (gbuf_world_range : Range)
    (bucket_offset : Int) : List ParamRangeEntry :=
  param_world_index_map.filterMap
    (fun p => _build_param_range_entry p.1 p.2 gbuf_world_range bucket_offset)

theorem gbuf_world_all_ranges_length (S W O : Nat) :
    (gbuf_world_all_ranges S W O).length = W := by
  simp [gbuf_world_all_ranges]

theorem gbuf_world_all_ranges_get (S W O r : Nat) (hr : r < W) :
    (gbuf_world_all_ranges S W O)[r]? =
      some ⟨((r * (S / W) + O : Nat) : Int),
            ((min S (r * (S / W) + S / W) + O : Nat) : Int)⟩ := by
  simp [gbuf_world_all_ranges, hr]

/-- C1: for bucket size `S` divisible by world size `W` and offset `O`, the
partitioner produces `W` ranges, rank `r` owning
`[O + r*(S/W), O + min S ((r+1)*(S/W)))`; the ranges are pairwise disjoint
and their union is exactly `[O, O+S)`. If `W` does not divide `S`, the
construction fails with the size-mismatch error. -/
theorem c1_buffer_partitioner (S W O : Nat) :
    (S % W = 0 →
      _build_model_gbuf_range S W O = .ok (gbuf_world_all_ranges S W O) ∧
      (gbuf_world_all_ranges S W O).length = W ∧
      (∀ r : Nat, r < W →
        (gbuf_world_all_ranges S W O)[r]? =
          some ⟨(O : Int) + r * ((S / W : Nat) : Int),
                (O : Int) + min (S : Int) ((r + 1) * ((S / W : Nat) : Int))⟩) ∧
      (∀ i j : Nat, i < j → j < W → ∀ ri rj : Range,
        (gbuf_world_all_ranges S W O)[i]? = some ri →
        (gbuf_world_all_ranges S W O)[j]? = some rj →
        ∀ x : Int, ¬(ri.mem x ∧ rj.mem x)) ∧
      (∀ x : Int,
        (∃ rg ∈ gbuf_world_all_ranges S W O, rg.mem x) ↔
          ((O : Int) ≤ x ∧ x < (O : Int) + S))) ∧
    (S % W ≠ 0 →
      _build_model_gbuf_range S W O =
        .error "Each bucket's buffer size should be divisible by the data-parallel world size") := by
  constructor
  · intro hmod
    have hdvd : W ∣ S := Nat.dvd_of_mod_eq_zero hmod
    have hS : W * (S / W) = S := Nat.mul_div_cancel' hdvd
    set m := S / W with hm
    refine ⟨by simp [_build_model_gbuf_range, hmod], gbuf_world_all_ranges_length S W O,
      ?_, ?_, ?_⟩
    · intro r hr
      rw [gbuf_world_all_ranges_get S W O r hr]
      have hmin : min S (r * m + m) = r * m + m := by
        have h1 : (r + 1) * m ≤ W * m := Nat.mul_le_mul_right m (by omega)
        have h2 : (r + 1) * m = r * m + m := by ring
        omega
      have hmin2 : min (S : Int) ((r + 1) * (m : Int)) = (r : Int) * m + m := by
        have h1 : ((r : Int) + 1) * m = (r : Int) * m + m := by ring
        have h3 : (r : Int) * m + m ≤ (S : Int) := by
          have h4 : r * m + m ≤ S := by
            have h5 : (r + 1) * m ≤ W * m := Nat.mul_le_mul_right m (by omega)
            have h6 : (r + 1) * m = r * m + m := by ring
            omega
          calc (r : Int) * m + m = ((r * m + m : Nat) : Int) := by push_cast; ring
            _ ≤ (S : Int) := by exact_mod_cast h4
        rw [h1, min_eq_right h3]
      rw [hmin, hmin2, Option.some.injEq, Range.mk.injEq]
      constructor
      · rw [hm]; push_cast; ring
      · rw [hm]; push_cast; ring
    · intro i j hij hjW ri rj hi hj x ⟨hxi, hxj⟩
      have hiW : i < W := by omega
      rw [gbuf_world_all_ranges_get S W O i hiW, Option.some.injEq] at hi
      rw [gbuf_world_all_ranges_get S W O j hjW, Option.some.injEq] at hj
      subst hi; subst hj
      simp only [Range.mem] at hxi hxj
      have h1 : i * m + m ≤ j * m := by
        have h2 := Nat.mul_le_mul_right m (show i + 1 ≤ j by omega)
        have h3 : (i + 1) * m = i * m + m := by ring
        omega
      have h4 : min S (i * m + m) + O ≤ j * m + O := by
        have := min_le_right S (i * m + m)
        omega
      have h5 : ((min S (i * m + m) + O : Nat) : Int) ≤ ((j * m + O : Nat) : Int) :=
        Int.ofNat_le.mpr h4
      have h6 := hxi.2
      have h7 := hxj.1
      linarith
    · intro x
      constructor
      · rintro ⟨rg, hrg, hmem⟩
        simp only [gbuf_world_all_ranges, List.mem_map, List.mem_range] at hrg
        obtain ⟨r, hrW, rfl⟩ := hrg
        simp only [Range.mem] at hmem
        have h1 : O ≤ r * (S / W) + O := by omega
        have h2 : min S (r * (S / W) + S / W) + O ≤ S + O := by
          have := min_le_left S (r * (S / W) + S / W)
          omega
        have h3 : ((O : Nat) : Int) ≤ ((r * (S / W) + O : Nat) : Int) := Int.ofNat_le.mpr h1
        have h4 : ((min S (r * (S / W) + S / W) + O : Nat) : Int) ≤ ((S + O : Nat) : Int) :=
          Int.ofNat_le.mpr h2
        have h5 := hmem.1
        have h6 := hmem.2
        constructor
        · linarith
        · have h7 : ((S + O : Nat) : Int) = (O : Int) + S := by push_cast; ring
          linarith
      · rintro ⟨hOx, hxS⟩
        have hSpos : 0 < S := by
          by_contra h
          have : S = 0 := by omega
          subst this
          simp at hxS
          omega
        have hmpos : 0 < m := by
          rcases Nat.eq_zero_or_pos m with h | h
          · rw [h, Nat.mul_zero] at hS; omega
          · exact h
        set y : Nat := (x - O).toNat with hy
        have hxy : x = (O : Int) + y := by
          rw [hy]
          have : ((x - O).toNat : Int) = x - O := Int.toNat_of_nonneg (by omega)
          omega
        have hyS : y < S := by
          have : (y : Int) < S := by omega
          exact_mod_cast this
        set r : Nat := y / m with hr
        have hrW : r < W := by
          rw [hr, Nat.div_lt_iff_lt_mul hmpos]
          have h2 : m * W = W * m := by ring
          omega
        refine ⟨⟨((r * m + O : Nat) : Int), ((min S (r * m + m) + O : Nat) : Int)⟩, ?_, ?_⟩
        · simp only [gbuf_world_all_ranges, List.mem_map, List.mem_range]
          exact ⟨r, hrW, rfl⟩
        · have g1 : r * m ≤ y := by
            calc r * m = m * (y / m) := by rw [hr]; ring
              _ ≤ y := Nat.mul_div_le y m
          have g2 : y < r * m + m := by
            have h1 := Nat.div_add_mod y m
            have h2 := Nat.mod_lt y hmpos
            calc y = m * (y / m) + y % m := h1.symm
              _ < m * (y / m) + m := by omega
              _ = r * m + m := by rw [hr]; ring
          have n1 : r * m + O ≤ O + y := by omega
          have n2 : O + y < min S (r * m + m) + O := by omega
          constructor
          · calc ((r * m + O : Nat) : Int) ≤ ((O + y : Nat) : Int) := Int.ofNat_le.mpr n1
              _ = x := by rw [hxy]; push_cast; ring
          · calc x = ((O + y : Nat) : Int) := by rw [hxy]; push_cast; ring
              _ < ((min S (r * m + m) + O : Nat) : Int) := by exact_mod_cast n2
  · intro hmod
    simp [_build_model_gbuf_range, hmod]

/-- C1 witness: the partitioner at `S = 6`, `W = 3`, `O = 2`. -/
theorem c1_buffer_partitioner_witness :
    6 % 3 = 0 ∧
    _build_model_gbuf_range 6 3 2 = .ok (gbuf_world_all_ranges 6 3 2) ∧
    (gbuf_world_all_ranges 6 3 2).length = 3 ∧
    (gbuf_world_all_ranges 6 3 2)[1]? =
      some ⟨(2 : Int) + 1 * ((6 / 3 : Nat) : Int),
            (2 : Int) + min (6 : Int) ((1 + 1) * ((6 / 3 : Nat) : Int))⟩ := by
  have h := (c1_buffer_partitioner 6 3 2).1 (by decide)
  exact ⟨by decide, h.1, h.2.1, h.2.2.1 1 (by decide)⟩

/-- C2: a parameter with world range `[ws, we)` whose intersection
`[ls, le) = [max ws ss, min we se)` with the owned shard `[ss, se)` is
non-empty gets an entry whose four ranges all have size `le - ls`:
`gbuf_world = [ls, le)`, `gbuf_world_in_bucket` shifted by the bucket
offset, `gbuf_local` shifted by the shard start, and `param` starting at
`max 0 (ss - ws)`; with an empty intersection there is no entry. -/
theorem c2_param_range_entry (ws we ss se bo : Int) :
    (max ws ss < min we se →
      ∃ e, _build_param_range_entry ws we ⟨ss, se⟩ bo = some e ∧
        e.gbuf_world = ⟨max ws ss, min we se⟩ ∧
        e.gbuf_world_in_bucket = ⟨max ws ss - bo, min we se - bo⟩ ∧
        e.gbuf_local = ⟨max ws ss - ss, min we se - ss⟩ ∧
        e.param.start = max 0 (ss - ws) ∧
        e.gbuf_world.size = min we se - max ws ss ∧
        e.gbuf_world_in_bucket.size = e.gbuf_world.size ∧
        e.gbuf_local.size = e.gbuf_world.size ∧
        e.param.size = e.gbuf_world.size) ∧
    (¬ max ws ss < min we se →
      _build_param_range_entry ws we ⟨ss, se⟩ bo = none) := by
  constructor
  · intro h
    rw [_build_param_range_entry,
      if_pos (show min (Range.size ⟨ss, se⟩) (we - ss) > max 0 (ws - ss) by
        simp only [Range.size]; omega)]
    refine ⟨_, rfl, ?_, ?_, ?_, ?_, ?_, ?_, ?_, ?_⟩ <;>
      simp only [Range.normalize, Range.size, Range.mk.injEq] <;> omega
  · intro h
    rw [_build_param_range_entry,
      if_neg (show ¬ min (Range.size ⟨ss, se⟩) (we - ss) > max 0 (ws - ss) by
        simp only [Range.size]; omega)]

/-- C2 witness: parameter `[3, 12)`, shard `[5, 10)`, bucket offset `2`. -/
theorem c2_param_range_entry_witness :
    max (3 : Int) 5 < min 12 10 ∧
    ∃ e, _build_param_range_entry 3 12 ⟨5, 10⟩ 2 = some e ∧
      e.gbuf_world = ⟨max (3 : Int) 5, min 12 10⟩ ∧
      e.gbuf_world_in_bucket = ⟨max (3 : Int) 5 - 2, min 12 10 - 2⟩ ∧
      e.gbuf_local = ⟨max (3 : Int) 5 - 5, min 12 10 - 5⟩ ∧
      e.param.start = max 0 (5 - 3) ∧
      e.gbuf_world.size = min 12 10 - max (3 : Int) 5 ∧
      e.gbuf_world_in_bucket.size = e.gbuf_world.size ∧
      e.gbuf_local.size = e.gbuf_world.size ∧
      e.param.size = e.gbuf_world.size :=
  ⟨by decide, (c2_param_range_entry 3 12 5 10 2).1 (by decide)⟩

/-- C6 counterexample: with bucket size 100, `W = 4`, rank 3's shard
`[75, 100)` and parameter world range `[90, 110)`, the produced `param`
(within-parameter) range is `[0, 10)`, not `[15, 25)` as the claim
states. -/
theorem c6_counterexample :
    Option.map ParamRangeEntry.param
        (_build_param_range_entry 90 110 ⟨75, 100⟩ 0) = some ⟨0, 10⟩ ∧
    Option.map ParamRangeEntry.param
        (_build_param_range_entry 90 110 ⟨75, 100⟩ 0) ≠ some ⟨15, 25⟩ := by
  decide

/-- C6 (amended): bucket size 100, `W = 4` gives shards of size 25; for
the parameter with global range `[90, 110)` only `[90, 100)` is mappable;
rank 3 (shard `[75, 100)`) receives exactly `gbuf_local = [15, 25)` and
`param = [0, 10)` (length 10), and ranks 0-2 have no entry. -/
theorem c6_straddling_parameter :
    gbuf_world_all_ranges 100 4 0 = [⟨0, 25⟩, ⟨25, 50⟩, ⟨50, 75⟩, ⟨75, 100⟩] ∧
    _build_param_range_entry 90 110 ⟨75, 100⟩ 0 =
      some ⟨⟨90, 100⟩, ⟨90, 100⟩, ⟨15, 25⟩, ⟨0, 10⟩⟩ ∧
    _build_param_range_entry 90 110 ⟨0, 25⟩ 0 = none ∧
    _build_param_range_entry 90 110 ⟨25, 50⟩ 0 = none ∧
    _build_param_range_entry 90 110 ⟨50, 75⟩ 0 = none := by
  decide

/-! ## CheckpointCodec, `fully_sharded_bucket_space` encoding

`get_parameter_state_fs_bucket_space` collects, per bucket, one record
per owned parameter (its state tensors plus the `gbuf_local` slice, in
`param_map` order); `sharded_param_state_fs_bucket_space` asserts the
bucket non-empty and pad-fills the record sequence so the blocks cover
the rank's whole local shard. The three per-key state tensors behave
identically, so a record carries a single stand-in payload list. -/

/-- One per-parameter record as assembled by
`get_parameter_state_fs_bucket_space`: state tensor payload plus the
record's shard-local `[gbuf_local_start, gbuf_local_end)` slice. -/
structure ParamState where
  tensors : List Int
  gbuf_local_start : Int
  gbuf_local_end : Int
deriving Repr, DecidableEq

/-- One block of the encoded bucket state: a real record or a synthetic
padding block, tagged by its `padding` flag. -/
structure BucketBlock where
  tensors : List Int
  gbuf_local_start : Int
  gbuf_local_end : Int
  padding : Bool
deriving Repr, DecidableEq

/-- A real record tagged `padding = False` (the `if 'padding' not in
tensors: tensors['padding'] = False` pass). -/
def toBlock (p : ParamState) : BucketBlock :=
  ⟨p.tensors, p.gbuf_local_start, p.gbuf_local_end, false⟩

/-- A synthetic padding block over `[s, e)`: `torch.empty(e - s)` per
key, tagged `padding = True`. -/
def mkPadBlock (s e : Int) : BucketBlock :=
  ⟨List.replicate (e - s).toNat 0, s, e, true⟩

/-- Embeds the interior padding-fill pass (the `all_pad_tensors`
collection and reverse-order insertion): between consecutive records a
padding block is inserted exactly when `next_param_start ≠
cur_param_end`. -/
def insert_interior_padding : List ParamState → List BucketBlock
  | [] => []
  | [p] => [toBlock p]
  | p :: q :: rest =>
      if q.gbuf_local_start ≠ p.gbuf_local_end then
        toBlock p :: mkPadBlock p.gbuf_local_end q.gbuf_local_start ::
          insert_interior_padding (q :: rest)
      else
        toBlock p :: insert_interior_padding (q :: rest)

/-- Embeds the trailing-pad step: if the last block's end does not reach
`gbuf_local_numel`, one padding block is appended. -/
def append_trailing_padding (gbuf_local_numel : Int)
    (blocks : List BucketBlock) : List BucketBlock :=
  match blocks.getLast? with
  | none => blocks
  | some b =>
      if b.gbuf_local_end ≠ gbuf_local_numel then
        blocks ++ [mkPadBlock b.gbuf_local_end gbuf_local_numel]
      else blocks

/-- Embeds the per-bucket body of `sharded_param_state_fs_bucket_space`:
`assert bucket_state, 'empty bucket encountered'`, then pad-fill. -/
def sharded_param_state_fs_bucket_space (gbuf_local_numel : Int)
    (bucket_state : List ParamState) : Except String (List BucketBlock) :=
  if bucket_state.isEmpty then .error "empty bucket encountered"
  else
    .ok (append_trailing_padding gbuf_local_numel
      (insert_interior_padding bucket_state))

/-- Embeds the bucket-state assembly of
`get_parameter_state_fs_bucket_space`: one record per `param_map` entry,
in order, carrying the entry's `gbuf_local` slice. -/
def get_parameter_state_fs_bucket_space (param_map : List ParamRangeEntry)
    (payloads : List (List Int)) : List ParamState :=
  (param_map.zip payloads).map
    (fun pe => ⟨pe.2, pe.1.gbuf_local.start, pe.1.gbuf_local.stop⟩)

/-- Embeds the per-bucket body of
`load_parameter_state_from_fs_bucket_space`: drop padding-tagged blocks,
assert the count matches the live `param_map`, and copy the remaining
records' tensors, in order, onto the live entries. -/
def load_parameter_state_from_fs_bucket_space (blocks : List BucketBlock)
    (live_param_count : Nat) : Except String (List (List Int)) :=
  let bucket_state := blocks.filter (fun b => !b.padding)
  if bucket_state.length = live_param_count then
    .ok (bucket_state.map (fun b => b.tensors))
  else
    .error "bucket state length mismatch"

/-- `tilesFrom s L blocks`: the blocks' slices are contiguous, starting
at `s` and ending exactly at `L`. -/
def tilesFrom (s L : Int) : List BucketBlock → Bool
  | [] => decide (s = L)
  | b :: bs =>
      decide (b.gbuf_local_start = s) &&
      decide (b.gbuf_local_start ≤ b.gbuf_local_end) &&
      tilesFrom b.gbuf_local_end L bs

/-- Number of inter-record gaps (`next.start ≠ prev.end`). -/
def gapCount : List ParamState → Nat
  | p :: q :: rest =>
      (if q.gbuf_local_start ≠ p.gbuf_local_end then 1 else 0) +
        gapCount (q :: rest)
  | _ => 0

/-- The records are well-ordered: each is a non-degenerate slice and
consecutive records do not overlap or go backwards. -/
def recordsOrdered : List ParamState → Bool
  | [] => true
  | [p] => decide (p.gbuf_local_start ≤ p.gbuf_local_end)
  | p :: q :: rest =>
      decide (p.gbuf_local_start ≤ p.gbuf_local_end) &&
      decide (p.gbuf_local_end ≤ q.gbuf_local_start) &&
      recordsOrdered (q :: rest)

theorem insert_interior_padding_ne_nil (p : ParamState)
    (rs : List ParamState) : insert_interior_padding (p :: rs) ≠ [] := by
  cases rs with
  | nil => simp [insert_interior_padding]
  | cons q rest => simp only [insert_interior_padding]; split <;> simp

theorem filter_insert_interior_padding (rs : List ParamState) :
    (insert_interior_padding rs).filter (fun b => !b.padding) =
      rs.map toBlock := by
  induction rs with
  | nil => rfl
  | cons p rest ih =>
    cases rest with
    | nil => simp [insert_interior_padding, toBlock]
    | cons q rest2 =>
      simp only [insert_interior_padding]
      split
      · simp [List.filter_cons, toBlock, mkPadBlock, ih]
      · simp [List.filter_cons, toBlock, ih]

theorem countP_insert_interior_padding (rs : List ParamState) :
    (insert_interior_padding rs).countP (fun b => b.padding) =
      gapCount rs := by
  induction rs with
  | nil => rfl
  | cons p rest ih =>
    cases rest with
    | nil => simp [insert_interior_padding, gapCount, toBlock, List.countP_cons]
    | cons q rest2 =>
      simp only [insert_interior_padding, gapCount]
      split
      · simp only [List.countP_cons, toBlock, mkPadBlock, ih]
        simp
        omega
      · simp only [List.countP_cons, toBlock, ih]
        simp

theorem getLast?_cons_of_ne_nil {α : Type} (b : α) {l : List α}
    (h : l ≠ []) : (b :: l).getLast? = l.getLast? := by
  cases l with
  | nil => exact absurd rfl h
  | cons x t => exact List.getLast?_cons_cons

theorem getLast?_insert_interior_padding (rs : List ParamState) :
    (insert_interior_padding rs).getLast? = rs.getLast?.map toBlock := by
  induction rs with
  | nil => rfl
  | cons p rest ih =>
    cases rest with
    | nil => rfl
    | cons q rest2 =>
      have hne := insert_interior_padding_ne_nil q rest2
      simp only [insert_interior_padding]
      split
      · rw [getLast?_cons_of_ne_nil _ (by simp),
          getLast?_cons_of_ne_nil _ hne, ih,
          List.getLast?_cons_cons]
      · rw [getLast?_cons_of_ne_nil _ hne, ih, List.getLast?_cons_cons]

theorem tilesFrom_insert_interior_padding (rs : List ParamState)
    (p : ParamState) (L : Int)
    (hord : recordsOrdered (p :: rs) = true)
    (hL : ((p :: rs).getLast?).map (fun q => q.gbuf_local_end) = some L) :
    tilesFrom p.gbuf_local_start L (insert_interior_padding (p :: rs)) =
      true := by
  induction rs generalizing p with
  | nil =>
    simp only [recordsOrdered, decide_eq_true_eq] at hord
    simp at hL
    simp [insert_interior_padding, tilesFrom, toBlock, hL, hord]
    omega
  | cons q rest2 ih =>
    simp only [recordsOrdered, Bool.and_eq_true, decide_eq_true_eq] at hord
    obtain ⟨⟨h1, h2⟩, h3⟩ := hord
    rw [List.getLast?_cons_cons] at hL
    have ihq := ih q h3 hL
    simp only [insert_interior_padding]
    split
    · simp [tilesFrom, toBlock, mkPadBlock, h1, h2, ihq]
    · rename_i hgap
      simp only [ne_eq, not_not] at hgap
      rw [hgap] at ihq
      simp [tilesFrom, toBlock, h1, ihq]

theorem tilesFrom_append_pad (blocks : List BucketBlock) (s e L : Int)
    (ht : tilesFrom s e blocks = true) (heL : e ≤ L) :
    tilesFrom s L (blocks ++ [mkPadBlock e L]) = true := by
  induction blocks generalizing s with
  | nil =>
    simp only [tilesFrom, decide_eq_true_eq] at ht
    simp [tilesFrom, mkPadBlock, ht, heL]
  | cons b t ih =>
    simp only [tilesFrom, Bool.and_eq_true, decide_eq_true_eq] at ht
    obtain ⟨⟨hb1, hb2⟩, hb3⟩ := ht
    simp only [List.cons_append, tilesFrom, Bool.and_eq_true,
      decide_eq_true_eq]
    exact ⟨⟨hb1, hb2⟩, ih _ hb3⟩

/-- C3: encoding a non-empty ordered record sequence starting at local
offset 0 inserts an interior padding block exactly at each gap and one
trailing padding block exactly when the last record stops short of the
shard's local length `L`, so the blocks tile `[0, L)` contiguously; the
restore path drops the padding blocks and copies the remaining records,
in order, recovering the saved tensors; the number of padding blocks is
the number of gaps plus one if there is a tail gap. -/
theorem c3_fs_bucket_space_round_trip (p : ParamState)
    (rs : List ParamState) (L e : Int)
    (hord : recordsOrdered (p :: rs) = true)
    (h0 : p.gbuf_local_start = 0)
    (hlast : ((p :: rs).getLast?).map (fun q => q.gbuf_local_end) = some e)
    (heL : e ≤ L) :
    ∃ blocks,
      sharded_param_state_fs_bucket_space L (p :: rs) = .ok blocks ∧
      tilesFrom 0 L blocks = true ∧
      blocks.filter (fun b => !b.padding) = (p :: rs).map toBlock ∧
      load_parameter_state_from_fs_bucket_space blocks (p :: rs).length =
        .ok ((p :: rs).map (fun r => r.tensors)) ∧
      blocks.countP (fun b => b.padding) =
        gapCount (p :: rs) + (if e ≠ L then 1 else 0) := by
  have hdecode : ∀ blocks : List BucketBlock,
      blocks.filter (fun b => !b.padding) = (p :: rs).map toBlock →
      load_parameter_state_from_fs_bucket_space blocks (p :: rs).length =
        .ok ((p :: rs).map (fun r => r.tensors)) := by
    intro blocks hf
    simp only [load_parameter_state_from_fs_bucket_space, hf,
      List.length_map, List.map_map, if_true]
    rfl
  cases hgl : (p :: rs).getLast? with
  | none => rw [hgl] at hlast; simp at hlast
  | some q =>
    rw [hgl] at hlast
    simp only [Option.map_some', Option.some.injEq] at hlast
    have hib : (insert_interior_padding (p :: rs)).getLast? =
        some (toBlock q) := by
      rw [getLast?_insert_interior_padding, hgl]; rfl
    have htile : tilesFrom 0 e (insert_interior_padding (p :: rs)) =
        true := by
      have h := tilesFrom_insert_interior_padding rs p e hord
        (by rw [hgl]; simp [hlast])
      rwa [h0] at h
    have hfil := filter_insert_interior_padding (p :: rs)
    have hcnt := countP_insert_interior_padding (p :: rs)
    have hval : sharded_param_state_fs_bucket_space L (p :: rs) =
        .ok (append_trailing_padding L (insert_interior_padding (p :: rs))) := by
      simp [sharded_param_state_fs_bucket_space]
    by_cases he : e = L
    · subst he
      have happ : append_trailing_padding e
          (insert_interior_padding (p :: rs)) =
          insert_interior_padding (p :: rs) := by
        simp only [append_trailing_padding, hib]
        rw [if_neg]
        simp [toBlock, hlast]
      rw [happ] at hval
      exact ⟨_, hval, htile, hfil, hdecode _ hfil, by simp [hcnt]⟩
    · have hqe : (toBlock q).gbuf_local_end = e := by simp [toBlock, hlast]
      have happ : append_trailing_padding L
          (insert_interior_padding (p :: rs)) =
          insert_interior_padding (p :: rs) ++ [mkPadBlock e L] := by
        simp only [append_trailing_padding, hib]
        rw [if_pos (by rw [hqe]; exact he), hqe]
      rw [happ] at hval
      refine ⟨_, hval, ?_, ?_, ?_, ?_⟩
      · exact tilesFrom_append_pad _ 0 e L htile heL
      · rw [List.filter_append, hfil]
        simp [mkPadBlock]
      · apply hdecode
        rw [List.filter_append, hfil]
        simp [mkPadBlock]
      · rw [List.countP_append, hcnt]
        simp [mkPadBlock, he]

/-- C3 witness: two records `[0, 2)` and `[4, 7)` in a shard of local
length 10 (one interior gap, one tail gap). -/
theorem c3_fs_bucket_space_round_trip_witness :
    recordsOrdered [⟨[1, 2], 0, 2⟩, ⟨[3, 4, 5], 4, 7⟩] = true ∧
    (⟨[1, 2], 0, 2⟩ : ParamState).gbuf_local_start = 0 ∧
    (([⟨[1, 2], 0, 2⟩, ⟨[3, 4, 5], 4, 7⟩] :
        List ParamState).getLast?).map (fun q => q.gbuf_local_end) =
      some 7 ∧
    (7 : Int) ≤ 10 ∧
    ∃ blocks,
      sharded_param_state_fs_bucket_space 10
        [⟨[1, 2], 0, 2⟩, ⟨[3, 4, 5], 4, 7⟩] = .ok blocks ∧
      tilesFrom 0 10 blocks = true ∧
      blocks.filter (fun b => !b.padding) =
        ([⟨[1, 2], 0, 2⟩, ⟨[3, 4, 5], 4, 7⟩] :
          List ParamState).map toBlock ∧
      load_parameter_state_from_fs_bucket_space blocks
          ([⟨[1, 2], 0, 2⟩, ⟨[3, 4, 5], 4, 7⟩] : List ParamState).length =
        .ok (([⟨[1, 2], 0, 2⟩, ⟨[3, 4, 5], 4, 7⟩] :
          List ParamState).map (fun r => r.tensors)) ∧
      blocks.countP (fun b => b.padding) =
        gapCount [⟨[1, 2], 0, 2⟩, ⟨[3, 4, 5], 4, 7⟩] +
          (if (7 : Int) ≠ 10 then 1 else 0) :=
  ⟨by decide, by decide, by decide, by decide,
    c3_fs_bucket_space_round_trip ⟨[1, 2], 0, 2⟩ [⟨[3, 4, 5], 4, 7⟩] 10 7
      (by decide) (by decide) (by decide) (by decide)⟩

/-- C10: a concrete input on which a rank's shard of a bucket intersects
no parameter range, so the bucket state is empty and the save path under
`fully_sharded_bucket_space` fails with the 'empty bucket encountered'
assertion: bucket of size 8 and world size 2, the only parameter covers
`[0, 4)`, and rank 1's shard is `[4, 8)`. -/
theorem c10_empty_bucket_assertion :
    (gbuf_world_all_ranges 8 2 0)[1]? = some ⟨4, 8⟩ ∧
    _build_model_gbuf_param_range_map [(0, 4)] ⟨4, 8⟩ 0 = [] ∧
    sharded_param_state_fs_bucket_space 4
      (get_parameter_state_fs_bucket_space
        (_build_model_gbuf_param_range_map [(0, 4)] ⟨4, 8⟩ 0) []) =
      .error "empty bucket encountered" := by
  refine ⟨by decide, by decide, ?_⟩
  rfl

/-! ## CheckpointCodec, `dp_zero_gather_scatter` load

`load_parameter_state_from_dp_zero` (modern, non-legacy path; the
`split_state_dict_if_needed` fp8 pre-step is embedded separately below):
rank 0 checks the checkpoint's unpadded element count against the live
buffer's, then per state key and per bucket slices the coalesced world
tensor, pads it at the tail to the padded bucket size, splits it into
`W` chunks of `numel // W` elements and scatters them; every rank copies
`recv_tensor[gbuf_local.start : gbuf_local.end]` into the live shard
tensor of each owned parameter. -/

/-- Per-bucket metadata of the live buffer: padded element count
(`grad_data.numel()`) and unpadded element count. -/
structure BucketMeta where
  numel : Nat
  numel_unpadded : Nat
deriving Repr, DecidableEq

/-- Checkpoint contents for one grad buffer under `dp_zero`: one
coalesced world tensor per state key plus the unpadded element count. -/
structure DpZeroState where
  param : List Int
  exp_avg : List Int
  exp_avg_sq : List Int
  numel_unpadded : Nat
deriving Repr, DecidableEq

/-- The bucket's slice of the coalesced world tensor, padded at the tail
only (`torch.nn.functional.pad(world_tensor, (0, pad))`, never at the
front) to the padded bucket size. -/
def padded_world_tensor (world_tensors : List Int) (offset : Nat)
    (b : BucketMeta) : List Int :=
  ((world_tensors.drop offset).take b.numel_unpadded) ++
    List.replicate (b.numel - b.numel_unpadded) 0

/-- The scatter send list built on rank 0: chunks
`world_tensor[i : i + m]` for `i in range(0, numel, m)`, i.e. `W` equal
chunks of size `m = numel // W`. -/
def scatter_send_tensors (world_tensor : List Int) (W m : Nat) :
    List (List Int) :=
  (List.range W).map (fun r => (world_tensor.drop (r * m)).take m)

/-- The tensors a rank's copy loop produces for one bucket and one key:
for each owned parameter, the slice
`recv_tensor[gbuf_local.start : gbuf_local.end]` of the received
chunk. -/
def bucket_copy_out (recv_tensor : List Int) (param_map : List Range) :
    List (List Int) :=
  param_map.map (fun rg =>
    (recv_tensor.drop rg.start.toNat).take (rg.stop.toNat - rg.start.toNat))

/-- Embeds the per-bucket, per-key body of
`load_parameter_state_from_dp_zero`: the divisibility / bounds asserts,
the tail padding, the scatter and the copy loop over the bucket's
`param_map` entries. -/
def load_dp_zero_bucket_key (world_tensors : List Int) (offset : Nat)
    (b : BucketMeta) (param_map : List Range) (W rank : Nat) :
    Except String (List (List Int)) :=
  if b.numel % W ≠ 0 then
    .error "assert gbuf_world_numel % data_parallel_world_size == 0"
  else if b.numel < b.numel_unpadded then
    .error "assert gbuf_world_numel_unpadded <= gbuf_world_numel"
  else if ¬(offset < offset + b.numel_unpadded ∧
      offset + b.numel_unpadded ≤ world_tensors.length) then
    .error "assert 0 <= start < end <= world_tensors.numel()"
  else
    let m := b.numel / W
    let world_tensor := padded_world_tensor world_tensors offset b
    let recv_tensor := (scatter_send_tensors world_tensor W m).getD rank []
    .ok (bucket_copy_out recv_tensor param_map)

/-- The per-key loop over a buffer's buckets, accumulating
`offset_in_world_tensors` by each bucket's unpadded size. -/
def load_dp_zero_buckets_key (world_tensors : List Int) (W rank : Nat) :
    Nat → List (BucketMeta × List Range) →
    Except String (List (List (List Int)))
  | _, [] => .ok []
  | offset, (b, pm) :: rest =>
      match load_dp_zero_bucket_key world_tensors offset b pm W rank with
      | .error e => .error e
      | .ok out =>
          match load_dp_zero_buckets_key world_tensors W rank
              (offset + b.numel_unpadded) rest with
          | .error e => .error e
          | .ok outs => .ok (out :: outs)

/-- The loaded shard tensors, per state key, per bucket, per owned
parameter. -/
structure DpZeroLoadResult where
  param : List (List (List Int))
  exp_avg : List (List (List Int))
  exp_avg_sq : List (List (List Int))
deriving Repr, DecidableEq

/-- Embeds `load_parameter_state_from_dp_zero` for one grad buffer (one
dtype): the unpadded-count assert, then the three state keys in order. -/
def load_parameter_state_from_dp_zero (buffer_numel_unpadded : Nat)
    (buckets : List (BucketMeta × List Range)) (sd : DpZeroState)
    (W rank : Nat) : Except String DpZeroLoadResult :=
  if sd.numel_unpadded ≠ buffer_numel_unpadded then
    .error "Number of unpadded elements must be same in current run and checkpoint"
  else
    match load_dp_zero_buckets_key sd.param W rank 0 buckets with
    | .error e => .error e
    | .ok p =>
        match load_dp_zero_buckets_key sd.exp_avg W rank 0 buckets with
        | .error e => .error e
        | .ok a =>
            match load_dp_zero_buckets_key sd.exp_avg_sq W rank 0 buckets with
            | .error e => .error e
            | .ok s => .ok ⟨p, a, s⟩

/-- Sum of the unpadded sizes of a bucket list. -/
def sumUnpadded (buckets : List (BucketMeta × List Range)) : Nat :=
  (buckets.map (fun bp => bp.1.numel_unpadded)).sum

/-- `offset_in_world_tensors` at bucket index `i`. -/
def offsetAt (buckets : List (BucketMeta × List Range)) (i : Nat) : Nat :=
  sumUnpadded (buckets.take i)

theorem padded_world_tensor_take (wt : List Int) (off : Nat)
    (b : BucketMeta) (h : off + b.numel_unpadded ≤ wt.length) :
    (padded_world_tensor wt off b).take b.numel_unpadded =
      (wt.drop off).take b.numel_unpadded := by
  rw [padded_world_tensor, List.take_append_eq_append_take]
  simp [List.take_take, List.length_take, List.length_drop]
  omega

theorem padded_world_tensor_drop (wt : List Int) (off : Nat)
    (b : BucketMeta) (h : off + b.numel_unpadded ≤ wt.length) :
    (padded_world_tensor wt off b).drop b.numel_unpadded =
      List.replicate (b.numel - b.numel_unpadded) 0 := by
  rw [padded_world_tensor, List.drop_append_eq_append_drop]
  have hlen : ((wt.drop off).take b.numel_unpadded).length =
      b.numel_unpadded := by
    simp [List.length_take, List.length_drop]
    omega
  simp [hlen]

theorem padded_world_tensor_length (wt : List Int) (off : Nat)
    (b : BucketMeta) (h1 : b.numel_unpadded ≤ b.numel)
    (h2 : off + b.numel_unpadded ≤ wt.length) :
    (padded_world_tensor wt off b).length = b.numel := by
  simp [padded_world_tensor, List.length_take, List.length_drop]
  omega

theorem scatter_send_tensors_length (wt : List Int) (W m : Nat) :
    (scatter_send_tensors wt W m).length = W := by
  simp [scatter_send_tensors]

theorem scatter_send_tensors_get (wt : List Int) (W m r : Nat)
    (hr : r < W) :
    (scatter_send_tensors wt W m)[r]? =
      some ((wt.drop (r * m)).take m) := by
  simp [scatter_send_tensors, hr]

theorem scatter_send_tensors_chunk_length (wt : List Int) (W m r : Nat)
    (hr : r < W) (hlen : wt.length = W * m) :
    ((wt.drop (r * m)).take m).length = m := by
  simp only [List.length_take, List.length_drop, hlen]
  have h1 : (r + 1) * m ≤ W * m := Nat.mul_le_mul_right m (by omega)
  have h2 : (r + 1) * m = r * m + m := by ring
  omega

theorem scatter_send_tensors_join (wt : List Int) (W m : Nat) :
    (scatter_send_tensors wt W m).flatten = wt.take (W * m) := by
  induction W with
  | zero => simp [scatter_send_tensors]
  | succ n ih =>
    rw [scatter_send_tensors, List.range_succ, List.map_append,
      List.flatten_append]
    rw [scatter_send_tensors] at ih
    rw [ih]
    simp only [List.map_cons, List.map_nil, List.flatten_cons,
      List.flatten_nil, List.append_nil]
    rw [← List.take_add]
    congr 1
    ring

theorem load_dp_zero_bucket_key_ok (world : List Int) (off : Nat)
    (b : BucketMeta) (pm : List Range) (W rank : Nat)
    (h1 : b.numel % W = 0) (h2 : b.numel_unpadded ≤ b.numel)
    (h3 : 0 < b.numel_unpadded)
    (h4 : off + b.numel_unpadded ≤ world.length) :
    load_dp_zero_bucket_key world off b pm W rank =
      .ok (bucket_copy_out
        ((scatter_send_tensors (padded_world_tensor world off b) W
          (b.numel / W)).getD rank []) pm) := by
  rw [load_dp_zero_bucket_key, if_neg (by omega), if_neg (by omega),
    if_neg (not_not.mpr ⟨by omega, h4⟩)]

theorem load_dp_zero_buckets_key_spec (world : List Int) (W rank : Nat)
    (buckets : List (BucketMeta × List Range)) :
    ∀ off : Nat,
      (∀ bp ∈ buckets, bp.1.numel % W = 0 ∧
        bp.1.numel_unpadded ≤ bp.1.numel ∧ 0 < bp.1.numel_unpadded) →
      off + sumUnpadded buckets ≤ world.length →
      ∃ out, load_dp_zero_buckets_key world W rank off buckets = .ok out ∧
        out.length = buckets.length ∧
        ∀ i b pm, buckets[i]? = some (b, pm) →
          out[i]? = some (bucket_copy_out
            ((scatter_send_tensors
              (padded_world_tensor world (off + offsetAt buckets i) b) W
              (b.numel / W)).getD rank []) pm) := by
  induction buckets with
  | nil =>
    intro off _ _
    exact ⟨[], rfl, rfl, by intro i b pm h; simp at h⟩
  | cons bp rest ih =>
    obtain ⟨b, pm⟩ := bp
    intro off hwf hlen
    have hb := hwf (b, pm) (List.mem_cons_self _ _)
    have hsum : sumUnpadded ((b, pm) :: rest) =
        b.numel_unpadded + sumUnpadded rest := by
      simp [sumUnpadded]
    have h4 : off + b.numel_unpadded ≤ world.length := by omega
    have hbk := load_dp_zero_bucket_key_ok world off b pm W rank
      hb.1 hb.2.1 hb.2.2 h4
    obtain ⟨outs, houts, hlen2, hidx⟩ := ih (off + b.numel_unpadded)
      (fun q hq => hwf q (List.mem_cons_of_mem _ hq)) (by omega)
    refine ⟨bucket_copy_out
        ((scatter_send_tensors (padded_world_tensor world off b) W
          (b.numel / W)).getD rank []) pm :: outs,
      ?_, by simp [hlen2], ?_⟩
    · simp only [load_dp_zero_buckets_key, hbk, houts]
    · intro i b2 pm2 hi
      match i with
      | 0 =>
        simp only [List.getElem?_cons_zero, Option.some.injEq] at hi
        obtain ⟨hb2, hpm2⟩ := Prod.mk.injEq .. ▸ hi
        subst hb2; subst hpm2
        simp [offsetAt, sumUnpadded]
      | Nat.succ j =>
        simp only [List.getElem?_cons_succ] at hi
        have hoff : off + offsetAt ((b, pm) :: rest) (j + 1) =
            off + b.numel_unpadded + offsetAt rest j := by
          simp [offsetAt, sumUnpadded, List.take_succ_cons]
          omega
        simp only [List.getElem?_cons_succ, hoff]
        exact hidx j b2 pm2 hi

/-- C4: on `dp_zero_gather_scatter` load, the restore fails with the
size-mismatch error unless the checkpoint's unpadded element count
equals the live buffer's; the per-bucket world slice is padded at the
tail only (never the front) to the padded bucket size and split into `W`
equal chunks of size `numel / W` covering it exactly; on success every
rank's result holds, per key (`param`, `exp_avg`, `exp_avg_sq`) and per
owned parameter, the `[gbuf_local.start, gbuf_local.end)` slice of its
received chunk. -/
theorem c4_dp_zero_load (buffer_numel_unpadded : Nat)
    (buckets : List (BucketMeta × List Range)) (sd : DpZeroState)
    (W rank : Nat) :
    (sd.numel_unpadded ≠ buffer_numel_unpadded →
      load_parameter_state_from_dp_zero buffer_numel_unpadded buckets sd
          W rank =
        .error "Number of unpadded elements must be same in current run and checkpoint") ∧
    (∀ (wt : List Int) (off : Nat) (b : BucketMeta),
      off + b.numel_unpadded ≤ wt.length → b.numel_unpadded ≤ b.numel →
        (padded_world_tensor wt off b).take b.numel_unpadded =
          (wt.drop off).take b.numel_unpadded ∧
        (padded_world_tensor wt off b).drop b.numel_unpadded =
          List.replicate (b.numel - b.numel_unpadded) 0 ∧
        (padded_world_tensor wt off b).length = b.numel) ∧
    (∀ (wt : List Int) (m : Nat), wt.length = W * m →
      (scatter_send_tensors wt W m).length = W ∧
      (∀ r, r < W →
        (scatter_send_tensors wt W m)[r]? =
          some ((wt.drop (r * m)).take m) ∧
        ((wt.drop (r * m)).take m).length = m) ∧
      (scatter_send_tensors wt W m).flatten = wt) ∧
    (sd.numel_unpadded = buffer_numel_unpadded →
      (∀ bp ∈ buckets, bp.1.numel % W = 0 ∧
        bp.1.numel_unpadded ≤ bp.1.numel ∧ 0 < bp.1.numel_unpadded) →
      sumUnpadded buckets ≤ sd.param.length →
      sumUnpadded buckets ≤ sd.exp_avg.length →
      sumUnpadded buckets ≤ sd.exp_avg_sq.length →
      ∃ res,
        load_parameter_state_from_dp_zero buffer_numel_unpadded buckets
          sd W rank = .ok res ∧
        ∀ i b pm, buckets[i]? = some (b, pm) →
          res.param[i]? = some (bucket_copy_out
            ((scatter_send_tensors
              (padded_world_tensor sd.param (offsetAt buckets i) b) W
              (b.numel / W)).getD rank []) pm) ∧
          res.exp_avg[i]? = some (bucket_copy_out
            ((scatter_send_tensors
              (padded_world_tensor sd.exp_avg (offsetAt buckets i) b) W
              (b.numel / W)).getD rank []) pm) ∧
          res.exp_avg_sq[i]? = some (bucket_copy_out
            ((scatter_send_tensors
              (padded_world_tensor sd.exp_avg_sq (offsetAt buckets i) b) W
              (b.numel / W)).getD rank []) pm)) := by
  refine ⟨?_, ?_, ?_, ?_⟩
  · intro hne
    rw [load_parameter_state_from_dp_zero, if_pos hne]
  · intro wt off b hoff hpad
    exact ⟨padded_world_tensor_take wt off b hoff,
      padded_world_tensor_drop wt off b hoff,
      padded_world_tensor_length wt off b hpad hoff⟩
  · intro wt m hlen
    refine ⟨scatter_send_tensors_length wt W m, ?_, ?_⟩
    · intro r hr
      exact ⟨scatter_send_tensors_get wt W m r hr,
        scatter_send_tensors_chunk_length wt W m r hr hlen⟩
    · rw [scatter_send_tensors_join, ← hlen, List.take_length]
  · intro heq hwf hp ha hs
    obtain ⟨outp, houtp, _, hidxp⟩ :=
      load_dp_zero_buckets_key_spec sd.param W rank buckets 0 hwf
        (by omega)
    obtain ⟨outa, houta, _, hidxa⟩ :=
      load_dp_zero_buckets_key_spec sd.exp_avg W rank buckets 0 hwf
        (by omega)
    obtain ⟨outs, houts, _, hidxs⟩ :=
      load_dp_zero_buckets_key_spec sd.exp_avg_sq W rank buckets 0 hwf
        (by omega)
    refine ⟨⟨outp, outa, outs⟩, ?_, ?_⟩
    · rw [load_parameter_state_from_dp_zero, if_neg (by omega)]
      simp only [houtp, houta, houts]
    · intro i b pm hi
      have h0 : ∀ j, 0 + offsetAt buckets j = offsetAt buckets j := by
        intro j; omega
      refine ⟨?_, ?_, ?_⟩
      · have := hidxp i b pm hi; rwa [h0 i] at this
      · have := hidxa i b pm hi; rwa [h0 i] at this
      · have := hidxs i b pm hi; rwa [h0 i] at this

/-- C4 witness: one bucket of padded size 4 and unpadded size 3, world
size 2, rank 1, one owned parameter at local slice `[0, 2)`. -/
theorem c4_dp_zero_load_witness :
    (3 : Nat) = 3 ∧
    ∃ res,
      load_parameter_state_from_dp_zero 3 [(⟨4, 3⟩, [⟨0, 2⟩])]
        ⟨[1, 2, 3], [4, 5, 6], [7, 8, 9], 3⟩ 2 1 = .ok res ∧
      res.param[0]? = some (bucket_copy_out
        ((scatter_send_tensors
          (padded_world_tensor [1, 2, 3] (offsetAt [(⟨4, 3⟩, [⟨0, 2⟩])] 0)
            ⟨4, 3⟩) 2 (4 / 2)).getD 1 []) [⟨0, 2⟩]) := by
  obtain ⟨res, hres, hidx⟩ :=
    (c4_dp_zero_load 3 [(⟨4, 3⟩, [⟨0, 2⟩])]
      ⟨[1, 2, 3], [4, 5, 6], [7, 8, 9], 3⟩ 2 1).2.2.2
      rfl (by decide) (by decide) (by decide) (by decide)
  exact ⟨rfl, res, hres, (hidx 0 ⟨4, 3⟩ [⟨0, 2⟩] (by decide)).1⟩

/-! ## Resharder, `split_state_dict_if_needed`

The dtype-split conversion: skipped when no fp8 buffer exists or when
the checkpoint already contains a `torch.uint8` dtype key (the
already-split sentinel). Otherwise the code builds `index_to_fp8_map`,
asserts the combined `param_indices` to be exactly `0..len-1`,
initializes `fp8_flags = []` — and the flags-construction loop body is
`fp8_flag.append(index_to_fp8_map[i])`: it appends to the undefined name
`fp8_flag`, so its first iteration raises
`NameError: name 'fp8_flag' is not defined` before any tensor is
routed. -/

/-- Embeds the control flow of `split_state_dict_if_needed` up to the
flags-construction loop for one fp8 buffer. `fp8_gbuf_indices` is the
list of buffer indices holding fp8 parameters; `already_split` records
whether a `torch.uint8` dtype key was found in the checkpoint;
`.ok none` means the conversion was skipped with the state unchanged. -/
def split_state_dict_if_needed (fp8_gbuf_indices : List Nat)
    (already_split : Bool)
    (fp8_param_indices non_fp8_param_indices : List Nat) :
    Except String (Option (List Bool)) :=
  if fp8_gbuf_indices.length = 0 then .ok none
  else if already_split then .ok none
  else
    let param_indices := fp8_param_indices ++ non_fp8_param_indices
    if param_indices.min? ≠ some 0 then
      .error "AssertionError: min(param_indices) == 0"
    else if param_indices.max? ≠ some (param_indices.length - 1) then
      .error "AssertionError: max(param_indices) == len(param_indices) - 1"
    else
      .error "NameError: name 'fp8_flag' is not defined"

/-- C5 (code bug): with an fp8 buffer present and a not-yet-split
checkpoint, the split path passes the index assertions and then raises
`NameError` in the flags loop (`fp8_flag.append` on the undefined name
`fp8_flag`; the initialized list is `fp8_flags`), so the split/re-merge
round trip the claim describes never executes; the two skip paths (no
fp8 buffer, already-split sentinel) return with the state unchanged. -/
theorem c5_split_state_dict_name_error :
    split_state_dict_if_needed [0] false [0] [1] =
      .error "NameError: name 'fp8_flag' is not defined" ∧
    split_state_dict_if_needed [] false [0] [1] = .ok none ∧
    split_state_dict_if_needed [0] true [0] [1] = .ok none := by
  refine ⟨?_, by rfl, by rfl⟩
  rfl

/-! ## CheckpointCodec, `fully_sharded_model_space` -/

/-- Model-space sharded metadata for a parameter delivered by
`model_sharded_state_dict`: its canonical key and `(PP, TP, DP)` replica
coordinates (the length is checked at run time). -/
structure ShardedMeta where
  key : String
  replica_id : List Nat
deriving Repr, DecidableEq

/-- Embeds `_get_param_state_sharded_tensors`: asserts the replica id is
a `(PP, TP, DP)` triple, then emits one sharded tensor per state key
(`fp32_param` plus the optimizer state keys), each carrying the key
`optimizer.state.<state_key>.<metadata key>`, the metadata's replica id
with the DP coordinate forced to 0, and the parameter's flattened-range
item slice. -/
def _get_param_state_sharded_tensors (meta : ShardedMeta)
    (item_slice : Int × Int) (state_keys : List String) :
    Except String (List (String × List Nat × (Int × Int))) :=
  if meta.replica_id.length ≠ 3 then
    .error "Expected replica_id format (PP, TP, DP)"
  else
    .ok (state_keys.map (fun state_key =>
      ("optimizer.state." ++ state_key ++ "." ++ meta.key,
        meta.replica_id.take 2 ++ [0], item_slice)))

/-- Embeds the non-FSDP loop of `sharded_param_state_fs_model_space`:
one entry per owned parameter, in `param_map` order, carrying the three
state keys. -/
def sharded_param_state_fs_model_space :
    List (ShardedMeta × (Int × Int)) →
    Except String (List (List (String × List Nat × (Int × Int))))
  | [] => .ok []
  | (meta, item_slice) :: rest =>
      match _get_param_state_sharded_tensors meta item_slice
          ["fp32_param", "exp_avg", "exp_avg_sq"] with
      | .error e => .error e
      | .ok tensors =>
          match sharded_param_state_fs_model_space rest with
          | .error e => .error e
          | .ok out => .ok (tensors :: out)

/-- C7: under `fully_sharded_model_space`, every emitted per-parameter
state tensor, for every owned parameter and every state key, carries the
model metadata's `(PP, TP, DP)` replica identity with the data-parallel
coordinate replaced by zero. -/
theorem c7_fs_model_space_replica_id
    (params : List (ShardedMeta × (Int × Int)))
    (h : ∀ p ∈ params, p.1.replica_id.length = 3) :
    ∃ out, sharded_param_state_fs_model_space params = .ok out ∧
      out.length = params.length ∧
      ∀ (i : Nat) (meta : ShardedMeta) (item_slice : Int × Int),
        params[i]? = some (meta, item_slice) →
        ∀ pp tp dp : Nat, meta.replica_id = [pp, tp, dp] →
          out[i]? = some
            ((["fp32_param", "exp_avg", "exp_avg_sq"] :
              List String).map (fun state_key =>
                ("optimizer.state." ++ state_key ++ "." ++ meta.key,
                  [pp, tp, 0], item_slice))) := by
  induction params with
  | nil =>
    exact ⟨[], rfl, rfl, by intro i meta sl hi; simp at hi⟩
  | cons p rest ih =>
    obtain ⟨meta, item_slice⟩ := p
    have hm : meta.replica_id.length = 3 :=
      h (meta, item_slice) (List.mem_cons_self _ _)
    obtain ⟨out, hout, hlen, hidx⟩ :=
      ih (fun q hq => h q (List.mem_cons_of_mem _ hq))
    have hentry : _get_param_state_sharded_tensors meta item_slice
        ["fp32_param", "exp_avg", "exp_avg_sq"] =
        .ok (["fp32_param", "exp_avg", "exp_avg_sq"].map
          (fun state_key =>
            ("optimizer.state." ++ state_key ++ "." ++ meta.key,
              meta.replica_id.take 2 ++ [0], item_slice))) := by
      rw [_get_param_state_sharded_tensors, if_neg (by omega)]
    refine ⟨(["fp32_param", "exp_avg", "exp_avg_sq"].map
        (fun state_key =>
          ("optimizer.state." ++ state_key ++ "." ++ meta.key,
            meta.replica_id.take 2 ++ [0], item_slice))) :: out,
      ?_, by simp [hlen], ?_⟩
    · simp only [sharded_param_state_fs_model_space, hentry, hout]
    · intro i meta2 sl2 hi pp tp dp hrid
      match i with
      | 0 =>
        simp only [List.getElem?_cons_zero, Option.some.injEq] at hi
        obtain ⟨hm2, hsl2⟩ := Prod.mk.injEq .. ▸ hi
        subst hm2; subst hsl2
        simp only [List.getElem?_cons_zero, Option.some.injEq]
        rw [hrid]
        rfl
      | Nat.succ j =>
        simp only [List.getElem?_cons_succ] at hi ⊢
        exact hidx j meta2 sl2 hi pp tp dp hrid

/-- C7 witness: one parameter with replica id `(1, 2, 5)`. -/
theorem c7_fs_model_space_replica_id_witness :
    (∀ p ∈ [((⟨"module.weight", [1, 2, 5]⟩ : ShardedMeta), ((0, 4) : Int × Int))],
      p.1.replica_id.length = 3) ∧
    ∃ out,
      sharded_param_state_fs_model_space
        [(⟨"module.weight", [1, 2, 5]⟩, (0, 4))] = .ok out ∧
      out[0]? = some
        ((["fp32_param", "exp_avg", "exp_avg_sq"] :
          List String).map (fun state_key =>
            ("optimizer.state." ++ state_key ++ "." ++ "module.weight",
              [1, 2, 0], (0, 4)))) := by
  have h : ∀ p ∈ [((⟨"module.weight", [1, 2, 5]⟩ : ShardedMeta),
      ((0, 4) : Int × Int))], p.1.replica_id.length = 3 := by decide
  obtain ⟨out, hout, _, hidx⟩ := c7_fs_model_space_replica_id
    [(⟨"module.weight", [1, 2, 5]⟩, (0, 4))] h
  exact ⟨h, out, hout,
    hidx 0 ⟨"module.weight", [1, 2, 5]⟩ (0, 4) rfl 1 2 5 rfl⟩

/-! ## ShardMaterializer, dtype dispatch -/

/-- The shard pair produced for one parameter: the reduced-precision
shard view (an aliasing slice of the flattened parameter) and, for
float16/bfloat16 parameters, a full-precision shard copy. -/
structure ShardRecord where
  shard_model_param : List Int
  shard_main_param : Option (List Int)
deriving Repr, DecidableEq

/-- The `TypeError` message of `_build_model_and_main_param_groups`:
names the offending type. -/
def unsupported_dtype_message (t : String) : String :=
  "Wrapped parameters must be one of torch.cuda.FloatTensor,  torch.cuda.HalfTensor, or torch.cuda.BFloat16Tensor. Received " ++ t

/-- Embeds the per-parameter dtype dispatch of
`_build_model_and_main_param_groups`: fp16/bf16 parameters get the
`param_range` slice of the flattened parameter as the shard view plus a
cloned full-precision main shard; fp32 parameters get the shard view
alone; any other type tag raises `TypeError` naming the type. -/
def materialize_param_shard (param_type : String) (model_param : List Int)
    (param_range : Range) : Except String ShardRecord :=
  if param_type = "torch.cuda.HalfTensor" ∨
      param_type = "torch.cuda.BFloat16Tensor" then
    let shard_model_param :=
      (model_param.drop param_range.start.toNat).take
        (param_range.stop.toNat - param_range.start.toNat)
    let shard_main_param := shard_model_param
    .ok ⟨shard_model_param, some shard_main_param⟩
  else if param_type = "torch.cuda.FloatTensor" then
    let shard_model_param :=
      (model_param.drop param_range.start.toNat).take
        (param_range.stop.toNat - param_range.start.toNat)
    .ok ⟨shard_model_param, none⟩
  else
    .error (unsupported_dtype_message param_type)

/-- C8: shard materialization raises the unsupported-type error, naming
the offending type, exactly when the parameter's storage type is outside
the closed set {HalfTensor, BFloat16Tensor, FloatTensor}; types in the
set never trigger it. -/
theorem c8_unsupported_dtype (t : String) (model_param : List Int)
    (param_range : Range) :
    ((∃ e, materialize_param_shard t model_param param_range = .error e) ↔
      ¬(t = "torch.cuda.HalfTensor" ∨ t = "torch.cuda.BFloat16Tensor" ∨
        t = "torch.cuda.FloatTensor")) ∧
    (¬(t = "torch.cuda.HalfTensor" ∨ t = "torch.cuda.BFloat16Tensor" ∨
        t = "torch.cuda.FloatTensor") →
      materialize_param_shard t model_param param_range =
        .error (unsupported_dtype_message t)) := by
  by_cases h1 : t = "torch.cuda.HalfTensor" ∨ t = "torch.cuda.BFloat16Tensor"
  · constructor
    · simp [materialize_param_shard, h1]
      tauto
    · intro h2
      exact absurd (Or.elim h1 Or.inl (fun h => Or.inr (Or.inl h))) h2
  · by_cases h2 : t = "torch.cuda.FloatTensor"
    · constructor
      · simp [materialize_param_shard, h1, h2]
      · intro h3
        exact absurd (by tauto) h3
    · have h3 : ¬(t = "torch.cuda.HalfTensor" ∨
          t = "torch.cuda.BFloat16Tensor" ∨
          t = "torch.cuda.FloatTensor") := by tauto
      constructor
      · simp [materialize_param_shard, h1, h2]
      · intro _
        simp [materialize_param_shard, h1, h2]

/-- C8 witness: a `torch.cuda.DoubleTensor` parameter. -/
theorem c8_unsupported_dtype_witness :
    ¬("torch.cuda.DoubleTensor" = "torch.cuda.HalfTensor" ∨
      "torch.cuda.DoubleTensor" = "torch.cuda.BFloat16Tensor" ∨
      "torch.cuda.DoubleTensor" = "torch.cuda.FloatTensor") ∧
    materialize_param_shard "torch.cuda.DoubleTensor" [1, 2, 3] ⟨0, 2⟩ =
      .error (unsupported_dtype_message "torch.cuda.DoubleTensor") :=
  ⟨by decide,
    (c8_unsupported_dtype "torch.cuda.DoubleTensor" [1, 2, 3] ⟨0, 2⟩).2
      (by decide)⟩

/-! ## GroupAssembler, `_build_optimizer_group_ranges`

Parameters are embedded as natural-number identifiers; an optimizer
group is its ordered parameter list. The Python dict
`world_param_group_map[param] = group_index` is built scanning groups in
declaration order, a later write winning; the group-range build then
scans the rank's owned parameters in `gbuf_ranges` order, appending each
to its group's fresh `params` list and recording
`(group_index, len(params) - 1)`. -/

/-- The `world_param_group_map` dict build: after processing groups
`i, i+1, ...` starting from accumulator `acc`, the mapped index of
parameter `p` (last write wins). -/
def world_param_group_map_aux (p : Nat) :
    Nat → List (List Nat) → Option Nat → Option Nat
  | _, [], acc => acc
  | i, g :: rest, acc =>
      world_param_group_map_aux p (i + 1) rest
        (if p ∈ g then some i else acc)

/-- Group index recorded for parameter `p` by the
`world_param_group_map` build (none when `p` is in no group, the
`KeyError` case). -/
def world_param_group_map (param_groups : List (List Nat)) (p : Nat) :
    Option Nat :=
  world_param_group_map_aux p 0 param_groups none

theorem world_param_group_map_aux_spec (p : Nat) (gs : List (List Nat)) :
    ∀ (i : Nat) (acc : Option Nat) (gi : Nat),
      world_param_group_map_aux p i gs acc = some gi →
      acc = some gi ∨ (i ≤ gi ∧ gi < i + gs.length) := by
  induction gs with
  | nil => intro i acc gi h; exact Or.inl h
  | cons g rest ih =>
    intro i acc gi h
    rw [world_param_group_map_aux] at h
    rcases ih (i + 1) (if p ∈ g then some i else acc) gi h with h2 | h2
    · by_cases hg : p ∈ g
      · rw [if_pos hg, Option.some.injEq] at h2
        right
        simp [← h2]
      · rw [if_neg hg] at h2
        exact Or.inl h2
    · right
      simp only [List.length_cons]
      omega

theorem world_param_group_map_lt (param_groups : List (List Nat))
    (p gi : Nat) (h : world_param_group_map param_groups p = some gi) :
    gi < param_groups.length := by
  rcases world_param_group_map_aux_spec p param_groups 0 none gi h with
    h2 | h2
  · exact absurd h2 (by simp)
  · omega

/-- Embeds the owned-parameter loop of `_build_optimizer_group_ranges`:
for each owned parameter in order, look up its group index (`KeyError`
if absent), append it to that group's `params` list and record
`(group_index, len(params) - 1)` in the local param-group map. -/
def _build_optimizer_group_ranges_aux (wmap : Nat → Option Nat) :
    List Nat → List (Nat × Nat × Nat) → List (List Nat) →
    Except String (List (Nat × Nat × Nat) × List (List Nat))
  | [], local_param_group_map, group_ranges =>
      .ok (local_param_group_map, group_ranges)
  | p :: rest, local_param_group_map, group_ranges =>
      match wmap p with
      | none => .error "KeyError: param not in world_param_group_map"
      | some group_index =>
          match group_ranges[group_index]? with
          | none => .error "IndexError: group index out of range"
          | some g =>
              _build_optimizer_group_ranges_aux wmap rest
                (local_param_group_map ++ [(p, group_index, g.length)])
                (group_ranges.set group_index (g ++ [p]))

/-- Embeds `_build_optimizer_group_ranges`: a fresh empty `params` list
per input group (`[{"params": []} for _ in param_groups]`), then the
owned-parameter loop. -/
def _build_optimizer_group_ranges (param_groups : List (List Nat))
    (owned_params : List Nat) :
    Except String (List (Nat × Nat × Nat) × List (List Nat)) :=
  _build_optimizer_group_ranges_aux (world_param_group_map param_groups)
    owned_params [] (param_groups.map (fun _ => []))

theorem _build_optimizer_group_ranges_aux_spec (wmap : Nat → Option Nat)
    (bound : Nat) (hw : ∀ p gi, wmap p = some gi → gi < bound)
    (ps : List Nat) :
    ∀ (acc : List (Nat × Nat × Nat)) (groups : List (List Nat)),
      groups.length = bound →
      (∀ p ∈ ps, (wmap p).isSome) →
      (∀ e ∈ acc, ∃ g, groups[e.2.1]? = some g ∧ g[e.2.2]? = some e.1) →
      ∃ m gs,
        _build_optimizer_group_ranges_aux wmap ps acc groups = .ok (m, gs) ∧
        gs.length = bound ∧
        m.map (fun e => e.1) = acc.map (fun e => e.1) ++ ps ∧
        (∀ e ∈ m, ∃ g, gs[e.2.1]? = some g ∧ g[e.2.2]? = some e.1) ∧
        (∀ gi, gi < bound → (∀ p ∈ ps, wmap p ≠ some gi) →
          gs[gi]? = groups[gi]?) := by
  induction ps with
  | nil =>
    intro acc groups hlen _ hacc
    exact ⟨acc, groups, rfl, hlen, by simp, hacc, fun gi _ _ => rfl⟩
  | cons p rest ih =>
    intro acc groups hlen hps hacc
    have hpsome : (wmap p).isSome := hps p (List.mem_cons_self _ _)
    obtain ⟨group_index, hgi⟩ := Option.isSome_iff_exists.mp hpsome
    have hgib : group_index < bound := hw p group_index hgi
    have hglt : group_index < groups.length := by omega
    obtain ⟨g, hg⟩ : ∃ g, groups[group_index]? = some g :=
      ⟨groups[group_index], List.getElem?_eq_getElem hglt⟩
    have hacc2 : ∀ e ∈ acc ++ [(p, group_index, g.length)],
        ∃ g2, (groups.set group_index (g ++ [p]))[e.2.1]? = some g2 ∧
          g2[e.2.2]? = some e.1 := by
      intro e he
      rcases List.mem_append.mp he with he | he
      · obtain ⟨g2, hg2, hg2e⟩ := hacc e he
        by_cases hsame : e.2.1 = group_index
        · rw [hsame] at hg2
          rw [hg, Option.some.injEq] at hg2
          obtain ⟨hlt2, _⟩ := List.getElem?_eq_some_iff.mp hg2e
          have hlt : e.2.2 < g.length := by rw [hg2]; exact hlt2
          refine ⟨g ++ [p], ?_, ?_⟩
          · rw [hsame]
            exact List.getElem?_set_eq_of_lt (g ++ [p]) hglt
          · rw [List.getElem?_append_left hlt, hg2]
            exact hg2e
        · refine ⟨g2, ?_, hg2e⟩
          rw [List.getElem?_set_ne (Ne.symm hsame)]
          exact hg2
      · simp only [List.mem_singleton] at he
        subst he
        refine ⟨g ++ [p], ?_, ?_⟩
        · exact List.getElem?_set_eq_of_lt (g ++ [p]) hglt
        · exact List.getElem?_concat_length g p
    obtain ⟨m, gs, hok, hgslen, hmmap, hminv, huntouched⟩ :=
      ih (acc ++ [(p, group_index, g.length)])
        (groups.set group_index (g ++ [p]))
        (by simpa using hlen)
        (fun q hq => hps q (List.mem_cons_of_mem _ hq))
        hacc2
    refine ⟨m, gs, ?_, hgslen, ?_, hminv, ?_⟩
    · simp only [_build_optimizer_group_ranges_aux, hgi, hg]
      exact hok
    · rw [hmmap]
      simp
    · intro gi hgi2 hnone
      have hne : group_index ≠ gi := by
        intro hcontra
        exact hnone p (List.mem_cons_self _ _) (hcontra ▸ hgi)
      rw [huntouched gi hgi2
        (fun q hq => hnone q (List.mem_cons_of_mem _ hq))]
      exact List.getElem?_set_ne hne

/-- C9: the group assembler's output has exactly one group per input
optimizer group at the same index; groups owning zero local parameters
are retained as empty rather than dropped; the recorded map has one
entry per owned parameter, in order, and every recorded
`(group_index, order_within_group)` pair indexes back to that
parameter in the output groups. -/
theorem c9_group_assembler (param_groups : List (List Nat))
    (owned_params : List Nat)
    (h : ∀ p ∈ owned_params,
      (world_param_group_map param_groups p).isSome) :
    ∃ m gs,
      _build_optimizer_group_ranges param_groups owned_params =
        .ok (m, gs) ∧
      gs.length = param_groups.length ∧
      m.map (fun e => e.1) = owned_params ∧
      (∀ e ∈ m, ∃ g, gs[e.2.1]? = some g ∧ g[e.2.2]? = some e.1) ∧
      (∀ gi, gi < param_groups.length →
        (∀ p ∈ owned_params,
          world_param_group_map param_groups p ≠ some gi) →
        gs[gi]? = some []) := by
  obtain ⟨m, gs, hok, hlen, hmap, hinv, hun⟩ :=
    _build_optimizer_group_ranges_aux_spec
      (world_param_group_map param_groups) param_groups.length
      (world_param_group_map_lt param_groups) owned_params []
      (param_groups.map (fun _ => [])) (by simp) h
      (by intro e he; simp at he)
  refine ⟨m, gs, hok, hlen, by simpa using hmap, hinv, ?_⟩
  intro gi hgi hnone
  rw [hun gi hgi hnone, List.getElem?_map,
    List.getElem?_eq_getElem hgi]
  rfl

/-- C9 witness: groups `[[1, 2], [3]]`, owned parameters `[3, 1]`. -/
theorem c9_group_assembler_witness :
    (∀ p ∈ [3, 1], (world_param_group_map [[1, 2], [3]] p).isSome) ∧
    ∃ m gs,
      _build_optimizer_group_ranges [[1, 2], [3]] [3, 1] = .ok (m, gs) ∧
      gs.length = 2 ∧
      m.map (fun e => e.1) = [3, 1] := by
  have h : ∀ p ∈ [3, 1],
      (world_param_group_map [[1, 2], [3]] p).isSome := by decide
  obtain ⟨m, gs, hok, hlen, hmap, _, _⟩ :=
    c9_group_assembler [[1, 2], [3]] [3, 1] h
  exact ⟨h, m, gs, hok, by simpa using hlen, hmap⟩

end DistribOpt
